import Mathlib

/-!
Verification of the streaming worksheet writer (stream.go) of the excelize
repository.  The Go code is shallowly embedded: the buffered spill-to-disk
writer becomes a pure state type with explicit storage-environment passing,
the row emitter and partial scanner operate on the logical token stream of
the buffer, and fallible operations return `Except String`.  Helper
routines that live in repository files outside the provided sources
(coordinate addressing, the individual cell-value encoders, coordinate
normalization) are modelled from the specification; their doc comments say
so explicitly.
-/

namespace Excelize

/-! ## Coordinate addressing (modelled from the spec)

Cell references are alphanumeric strings such as A1; we represent a
reference as the list of its character codes, so that the arithmetic the
conversion performs on characters is explicit. -/

/-- Modelled from the spec: the column-name loop of ColumnNumberToName
(repository file lib.go, not under src/).  Fuel-indexed so that the
definition is structurally recursive; fuel equal to the column number is
always sufficient because the argument strictly decreases. -/
def colNameFuel : Nat → Nat → List Nat → List Nat
  | 0, _, acc => acc
  | _ + 1, 0, acc => acc
  | f + 1, m + 1, acc => colNameFuel f (m / 26) ((65 + m % 26) :: acc)

/-- Modelled from the spec: the decimal-digit loop of strconv.Itoa as used
for row numbers (external to src/). -/
def digitsFuel : Nat → Nat → List Nat → List Nat
  | 0, _, acc => acc
  | _ + 1, 0, acc => acc
  | f + 1, m + 1, acc => digitsFuel f ((m + 1) / 10) ((48 + (m + 1) % 10) :: acc)

/-- Decimal digit codes of a natural number. -/
def natDigits (n : Nat) : List Nat :=
  if n = 0 then [48] else digitsFuel n n []

/-- Column-name character codes of a (1-based) column number. -/
def colName (c : Nat) : List Nat :=
  colNameFuel c c []

/-- The character codes of the cell name for 1-based coordinates, for
example cellName 1 1 is the code list of A1. -/
def cellName (c r : Nat) : List Nat :=
  colName c ++ natDigits r

def isUpperCode (c : Nat) : Bool :=
  decide (65 ≤ c) && decide (c ≤ 90)

def isDigitCode (c : Nat) : Bool :=
  decide (48 ≤ c) && decide (c ≤ 57)

/-- Accumulating base-26 value of a column name, one letter at a time. -/
def foldColNum (l : List Nat) : Nat :=
  l.foldl (fun a c => a * 26 + (c - 64)) 0

/-- Accumulating base-10 value of a digit string. -/
def foldDigNum (l : List Nat) : Nat :=
  l.foldl (fun a c => a * 10 + (c - 48)) 0

/-- Modelled from the spec: ColumnNameToNumber (repository lib.go, not
under src/): a nonempty all-letter name maps to its base-26 value. -/
def ColumnNameToNumber (name : List Nat) : Except String Nat :=
  if name.isEmpty then .error "invalid column name"
  else if name.all isUpperCode then .ok (foldColNum name)
  else .error "invalid column name"

/-- Modelled from the spec: CellNameToCoordinates (repository lib.go, not
under src/): split a reference into letter prefix and digit suffix and
convert both, 1-based. -/
def CellNameToCoordinates (cell : List Nat) : Except String (Nat × Nat) :=
  let letters := cell.takeWhile isUpperCode
  let digits := cell.dropWhile isUpperCode
  if letters.isEmpty || digits.isEmpty || !digits.all isDigitCode then
    .error "invalid cell name"
  else
    let row := foldDigNum digits
    if row = 0 then .error "invalid cell name"
    else (ColumnNameToNumber letters).map fun col => (col, row)

/-- Modelled from the spec: CoordinatesToCellName (repository lib.go, not
under src/): reject non-positive coordinates, otherwise render the name. -/
def CoordinatesToCellName (col row : Nat) : Except String (List Nat) :=
  if col < 1 || row < 1 then .error "invalid cell coordinates"
  else .ok (cellName col row)

/-! ### Round-trip lemmas for the addressing model -/

theorem colNameFuel_zero (f : Nat) (acc : List Nat) :
    colNameFuel f 0 acc = acc := by
  cases f <;> rfl

theorem colNameFuel_append (f : Nat) :
    ∀ (m : Nat) (acc : List Nat),
      colNameFuel f m acc = colNameFuel f m [] ++ acc := by
  induction f with
  | zero => intro m acc; rfl
  | succ f ih =>
    intro m acc
    cases m with
    | zero => rfl
    | succ m =>
      show colNameFuel f (m / 26) _ = colNameFuel f (m / 26) _ ++ acc
      rw [ih (m / 26) ((65 + m % 26) :: acc), ih (m / 26) [65 + m % 26]]
      simp

theorem digitsFuel_zero (f : Nat) (acc : List Nat) :
    digitsFuel f 0 acc = acc := by
  cases f <;> rfl

theorem digitsFuel_append (f : Nat) :
    ∀ (m : Nat) (acc : List Nat),
      digitsFuel f m acc = digitsFuel f m [] ++ acc := by
  induction f with
  | zero => intro m acc; rfl
  | succ f ih =>
    intro m acc
    cases m with
    | zero => rfl
    | succ m =>
      show digitsFuel f _ _ = digitsFuel f _ _ ++ acc
      rw [ih ((m + 1) / 10) ((48 + (m + 1) % 10) :: acc),
        ih ((m + 1) / 10) [48 + (m + 1) % 10]]
      simp

theorem foldColNum_append (l : List Nat) (c : Nat) :
    foldColNum (l ++ [c]) = foldColNum l * 26 + (c - 64) := by
  simp [foldColNum, List.foldl_append]

theorem foldDigNum_append (l : List Nat) (c : Nat) :
    foldDigNum (l ++ [c]) = foldDigNum l * 10 + (c - 48) := by
  simp [foldDigNum, List.foldl_append]

theorem foldColNum_colNameFuel :
    ∀ (m : Nat), 1 ≤ m → ∀ (f : Nat), m ≤ f →
      foldColNum (colNameFuel f m []) = m := by
  intro m
  induction m using Nat.strong_induction_on with
  | _ m ih =>
    intro hm f hf
    match m, hm with
    | m + 1, _ =>
      match f, hf with
      | f + 1, _ =>
        show foldColNum (colNameFuel f (m / 26) [65 + m % 26]) = m + 1
        rw [colNameFuel_append]
        rw [foldColNum_append]
        by_cases h26 : m < 26
        · have : m / 26 = 0 := Nat.div_eq_of_lt h26
          rw [this, colNameFuel_zero]
          have : m % 26 = m := Nat.mod_eq_of_lt h26
          simp [foldColNum, this]
          omega
        · have hdivpos : 1 ≤ m / 26 := by
            have : 26 ≤ m := Nat.le_of_not_lt h26
            exact Nat.one_le_div_iff (by norm_num) |>.2 this
          have hdivlt : m / 26 < m + 1 := by
            have := Nat.div_le_self m 26
            omega
          have hdivle : m / 26 ≤ f := by
            have := Nat.div_le_self m 26
            omega
          rw [ih (m / 26) hdivlt hdivpos f hdivle]
          have := Nat.div_add_mod m 26
          omega

theorem foldDigNum_digitsFuel :
    ∀ (m : Nat), 1 ≤ m → ∀ (f : Nat), m ≤ f →
      foldDigNum (digitsFuel f m []) = m := by
  intro m
  induction m using Nat.strong_induction_on with
  | _ m ih =>
    intro hm f hf
    match m, hm with
    | m + 1, _ =>
      match f, hf with
      | f + 1, _ =>
        show foldDigNum (digitsFuel f ((m + 1) / 10) [48 + (m + 1) % 10]) = m + 1
        rw [digitsFuel_append]
        rw [foldDigNum_append]
        by_cases h10 : m + 1 < 10
        · have : (m + 1) / 10 = 0 := Nat.div_eq_of_lt h10
          rw [this, digitsFuel_zero]
          have : (m + 1) % 10 = m + 1 := Nat.mod_eq_of_lt h10
          simp [foldDigNum, this]
        · have hdivpos : 1 ≤ (m + 1) / 10 := by
            have : 10 ≤ m + 1 := Nat.le_of_not_lt h10
            exact Nat.one_le_div_iff (by norm_num) |>.2 this
          have hdivlt : (m + 1) / 10 < m + 1 := by
            exact Nat.div_lt_self (by omega) (by norm_num)
          have hdivle : (m + 1) / 10 ≤ f := by
            have := Nat.div_le_self (m + 1) 10
            omega
          rw [ih ((m + 1) / 10) hdivlt hdivpos f hdivle]
          have := Nat.div_add_mod (m + 1) 10
          omega

theorem colNameFuel_mem :
    ∀ (f m : Nat) (acc : List Nat) (c : Nat),
      (∀ x ∈ acc, 65 ≤ x ∧ x ≤ 90) → c ∈ colNameFuel f m acc →
      65 ≤ c ∧ c ≤ 90 := by
  intro f
  induction f with
  | zero => intro m acc c hacc hc; exact hacc c hc
  | succ f ih =>
    intro m acc c hacc hc
    cases m with
    | zero => exact hacc c hc
    | succ m =>
      refine ih (m / 26) ((65 + m % 26) :: acc) c ?_ hc
      intro x hx
      rcases List.mem_cons.1 hx with h | h
      · subst h
        have : m % 26 < 26 := Nat.mod_lt _ (by norm_num)
        omega
      · exact hacc x h

theorem digitsFuel_mem :
    ∀ (f m : Nat) (acc : List Nat) (c : Nat),
      (∀ x ∈ acc, 48 ≤ x ∧ x ≤ 57) → c ∈ digitsFuel f m acc →
      48 ≤ c ∧ c ≤ 57 := by
  intro f
  induction f with
  | zero => intro m acc c hacc hc; exact hacc c hc
  | succ f ih =>
    intro m acc c hacc hc
    cases m with
    | zero => exact hacc c hc
    | succ m =>
      refine ih ((m + 1) / 10) ((48 + (m + 1) % 10) :: acc) c ?_ hc
      intro x hx
      rcases List.mem_cons.1 hx with h | h
      · subst h
        have : (m + 1) % 10 < 10 := Nat.mod_lt _ (by norm_num)
        omega
      · exact hacc x h

theorem colName_mem (c x : Nat) (hx : x ∈ colName c) : 65 ≤ x ∧ x ≤ 90 :=
  colNameFuel_mem c c [] x (by intro y hy; cases hy) hx

theorem natDigits_mem (n x : Nat) (hx : x ∈ natDigits n) : 48 ≤ x ∧ x ≤ 57 := by
  unfold natDigits at hx
  by_cases h : n = 0
  · simp [h] at hx
    omega
  · simp [h] at hx
    exact digitsFuel_mem n n [] x (by intro y hy; cases hy) hx

theorem colName_ne_nil (c : Nat) (hc : 1 ≤ c) : colName c ≠ [] := by
  unfold colName
  match c, hc with
  | c + 1, _ =>
    show colNameFuel c (c / 26) [65 + c % 26] ≠ []
    rw [colNameFuel_append]
    simp

theorem natDigits_ne_nil (n : Nat) : natDigits n ≠ [] := by
  unfold natDigits
  by_cases h : n = 0
  · simp [h]
  · simp [h]
    match n, h with
    | n + 1, _ =>
      show digitsFuel n ((n + 1) / 10) [48 + (n + 1) % 10] ≠ []
      rw [digitsFuel_append]
      simp

theorem takeWhile_append_of_all {p : Nat → Bool} :
    ∀ (l₁ l₂ : List Nat), (∀ x ∈ l₁, p x = true) →
      List.takeWhile p (l₁ ++ l₂) = l₁ ++ List.takeWhile p l₂ := by
  intro l₁
  induction l₁ with
  | nil => intro l₂ _; rfl
  | cons a l ih =>
    intro l₂ h
    have ha : p a = true := h a (List.mem_cons_self a l)
    simp [List.takeWhile, ha]
    exact ih l₂ fun x hx => h x (List.mem_cons_of_mem a hx)

theorem dropWhile_append_of_all {p : Nat → Bool} :
    ∀ (l₁ l₂ : List Nat), (∀ x ∈ l₁, p x = true) →
      List.dropWhile p (l₁ ++ l₂) = List.dropWhile p l₂ := by
  intro l₁
  induction l₁ with
  | nil => intro l₂ _; rfl
  | cons a l ih =>
    intro l₂ h
    have ha : p a = true := h a (List.mem_cons_self a l)
    simp [List.dropWhile, ha]
    exact ih l₂ fun x hx => h x (List.mem_cons_of_mem a hx)

theorem takeWhile_eq_nil_of_all {p : Nat → Bool} :
    ∀ (l : List Nat), (∀ x ∈ l, p x = false) → List.takeWhile p l = [] := by
  intro l h
  cases l with
  | nil => rfl
  | cons a l =>
    have := h a (List.mem_cons_self a l)
    simp [List.takeWhile, this]

theorem dropWhile_eq_self_of_all {p : Nat → Bool} :
    ∀ (l : List Nat), (∀ x ∈ l, p x = false) → List.dropWhile p l = l := by
  intro l h
  cases l with
  | nil => rfl
  | cons a l =>
    have := h a (List.mem_cons_self a l)
    simp [List.dropWhile, this]

/-- Round trip of the addressing model: converting 1-based coordinates to a
cell name and parsing the name back recovers the coordinates. -/
theorem cellName_roundtrip (c r : Nat) (hc : 1 ≤ c) (hr : 1 ≤ r) :
    CellNameToCoordinates (cellName c r) = .ok (c, r) := by
  have hupper : ∀ x ∈ colName c, isUpperCode x = true := by
    intro x hx
    have := colName_mem c x hx
    simp [isUpperCode]
    omega
  have hdignotupper : ∀ x ∈ natDigits r, isUpperCode x = false := by
    intro x hx
    have := natDigits_mem r x hx
    simp [isUpperCode]
    omega
  have hdig : ∀ x ∈ natDigits r, isDigitCode x = true := by
    intro x hx
    have := natDigits_mem r x hx
    simp [isDigitCode]
    omega
  have htake : List.takeWhile isUpperCode (cellName c r) = colName c := by
    unfold cellName
    rw [takeWhile_append_of_all _ _ hupper,
      takeWhile_eq_nil_of_all _ hdignotupper, List.append_nil]
  have hdrop : List.dropWhile isUpperCode (cellName c r) = natDigits r := by
    unfold cellName
    rw [dropWhile_append_of_all _ _ hupper,
      dropWhile_eq_self_of_all _ hdignotupper]
  have hfoldc : foldColNum (colName c) = c := foldColNum_colNameFuel c hc c le_rfl
  have hfoldr : foldDigNum (natDigits r) = r := by
    unfold natDigits
    have : ¬ r = 0 := by omega
    simp only [this, if_false]
    exact foldDigNum_digitsFuel r hr r le_rfl
  unfold CellNameToCoordinates
  simp only [htake, hdrop]
  have h1 : (colName c).isEmpty = false := by
    have := colName_ne_nil c hc
    cases hcol : colName c with
    | nil => exact absurd hcol this
    | cons a l => rfl
  have h2 : (natDigits r).isEmpty = false := by
    have := natDigits_ne_nil r
    cases hd : natDigits r with
    | nil => exact absurd hd this
    | cons a l => rfl
  have h3 : (natDigits r).all isDigitCode = true := List.all_eq_true.2 hdig
  simp only [h1, h2, h3]
  simp only [Bool.or_self, Bool.or_false, Bool.not_true, if_false]
  rw [hfoldr]
  have : ¬ r = 0 := by omega
  simp only [this, if_false]
  unfold ColumnNameToNumber
  have h4 : (colName c).all isUpperCode = true := List.all_eq_true.2 hupper
  simp only [h1, h4, if_true, if_false, Bool.false_eq_true]
  rw [hfoldc]
  rfl

/-- Producing a cell name from valid coordinates never fails. -/
theorem coordinatesToCellName_ok (c r : Nat) (hc : 1 ≤ c) (hr : 1 ≤ r) :
    CoordinatesToCellName c r = .ok (cellName c r) := by
  unfold CoordinatesToCellName
  have h1 : ¬ c < 1 := by omega
  have h2 : ¬ r < 1 := by omega
  simp [h1, h2]

/-! ## Cell encoder

The dynamic dispatch of setCellValFunc (src/stream.go) over the
heterogeneous Go input value is embedded as a closed sum type.  The
individual leaf encoders (setCellInt, setCellStr, setCellFloat,
setCellDuration, setCellTime, setCellBool) live in repository files
outside src/ and are modelled from the spec; external conversions that
cannot be embedded (binary floating-point formatting, fractional-day
conversion of durations and timestamps) enter the model as the literal
they produce, and a timestamp conversion that fails is represented by
none. -/

/-- A dynamically-typed cell value offered to the row emitter.  The
integer family (int, int8 … uint64) collapses to one constructor since
setCellIntFunc converts every member to int before encoding. -/
inductive CellVal where
  | intv (i : Int)
  | float32v (lit : String)
  | float64v (lit : String)
  | strv (s : String)
  | bytesv (s : String)
  | durationv (lit : String)
  | timev (conv : Option String)
  | boolv (b : Bool)
  | nilv
  | otherv (s : String)
deriving DecidableEq

/-- Output of the cell encoder: markup type tag, literal text, and the
whitespace-preservation marker. -/
structure EncOut where
  t : String
  v : String
  space : Bool
deriving DecidableEq

/-- Modelled from the spec: setCellStr (repository cell.go, not under
src/): explicit string tag, verbatim text, space marker when the text has
a leading or trailing whitespace byte (newline, carriage return, space). -/
def setCellStr (s : String) : EncOut :=
  let ws : List Char := [Char.ofNat 10, Char.ofNat 13, Char.ofNat 32]
  let mark := !s.isEmpty &&
    (ws.contains (s.get 0) || ws.contains (s.back))
  ⟨"str", s, mark⟩

/-- Modelled from the spec: setCellInt (repository cell.go, not under
src/): canonical decimal literal, default numeric type. -/
def setCellInt (i : Int) : EncOut :=
  ⟨"", toString i, false⟩

/-- Modelled from the spec: setCellFloat (repository cell.go, not under
src/): minimal-digits decimal literal at the requested precision; the
formatting itself is external, so the model receives the literal. -/
def setCellFloat (lit : String) : EncOut :=
  ⟨"", lit, false⟩

/-- Modelled from the spec: setCellDuration (repository cell.go, not
under src/): fractional-day numeric literal, default numeric type. -/
def setCellDuration (lit : String) : EncOut :=
  ⟨"", lit, false⟩

/-- Modelled from the spec: setCellBool (repository cell.go, not under
src/): boolean tag with literal 1 or 0. -/
def setCellBool (b : Bool) : EncOut :=
  ⟨"b", if b then "1" else "0", false⟩

/-- Modelled from the spec: setCellTime (repository cell.go, not under
src/): the timestamp conversion may fail, in which case the encoder
reports an error. -/
def setCellTime (conv : Option String) : Except String EncOut :=
  match conv with
  | some lit => .ok ⟨"", lit, false⟩
  | none => .error "time conversion error"

/-- The value dispatch of setCellValFunc from src/stream.go. -/
def setCellValFunc : CellVal → Except String EncOut
  | .intv i => .ok (setCellInt i)
  | .float32v lit => .ok (setCellFloat lit)
  | .float64v lit => .ok (setCellFloat lit)
  | .strv s => .ok (setCellStr s)
  | .bytesv s => .ok (setCellStr s)
  | .durationv lit => .ok (setCellDuration lit)
  | .timev conv => setCellTime conv
  | .boolv b => .ok (setCellBool b)
  | .nilv => .ok (setCellStr "")
  | .otherv s => .ok (setCellStr s)

/-- Whether an encoder result is a success. -/
def isOkE (e : Except String EncOut) : Bool :=
  match e with
  | .ok _ => true
  | .error _ => false

/-- The encoder output, defaulting on failure; used to describe the cells
a successful emission writes. -/
def encOutD (v : CellVal) : EncOut :=
  match setCellValFunc v with
  | .ok o => o
  | .error _ => ⟨"", "", false⟩

/-! ## The elastic buffer (bufferedWriter of src/stream.go)

The writer owns an in-memory buffer and an optional temp file; both are
byte lists here, generic over the element type so that the same state
machine serves the byte-level claims and the token-level session model.
Storage I/O outcomes are injected through an explicit environment. -/

/-- Outcome switches for the external storage operations: temp-file
creation, writes to the file, reads back from it. -/
structure StorageEnv where
  createOk : Bool
  writeOk : Bool
  readOk : Bool
deriving DecidableEq

/-- The environment in which every storage operation succeeds. -/
def envOK : StorageEnv :=
  ⟨true, true, true⟩

/-- State of bufferedWriter: tmp is the backing-store content when a temp
file exists, buf the in-memory region. -/
structure BufferedWriter (α : Type) where
  tmp : Option (List α)
  buf : List α
deriving DecidableEq

/-- The fixed spill threshold, 1 <<< 24 bytes in src/stream.go. -/
def chunk : Nat :=
  2 ^ 24

namespace BufferedWriter

variable {α : Type}

/-- Write appends to the in-memory buffer and never fails. -/
def Write (bw : BufferedWriter α) (p : List α) : BufferedWriter α :=
  ⟨bw.tmp, bw.buf ++ p⟩

/-- Flush moves the entire in-memory buffer into the temp file when one
exists; the file write may fail. -/
def Flush (env : StorageEnv) (bw : BufferedWriter α) :
    Except String (BufferedWriter α) :=
  match bw.tmp with
  | none => .ok bw
  | some t =>
    if env.writeOk then .ok ⟨some (t ++ bw.buf), []⟩
    else .error "storage write error"

/-- Sync spills once the in-memory region reaches the threshold,
creating the temp file on demand; a failed creation is swallowed and the
writer stays memory-only. -/
def Sync (env : StorageEnv) (size : List α → Nat) (bw : BufferedWriter α) :
    Except String (BufferedWriter α) :=
  if size bw.buf < chunk then .ok bw
  else
    match bw.tmp with
    | some _ => Flush env bw
    | none =>
      if env.createOk then Flush env ⟨some [], bw.buf⟩
      else .ok bw

/-- Reader flushes and exposes the full logical content. -/
def Reader (env : StorageEnv) (bw : BufferedWriter α) :
    Except String (List α) :=
  match bw.tmp with
  | none => .ok bw.buf
  | some _ =>
    match Flush env bw with
    | .error e => .error e
    | .ok bw' =>
      if env.readOk then .ok (bw'.tmp.getD []) else .error "storage read error"

/-- Bytes drains the full logical content into one sequence. -/
def Bytes (env : StorageEnv) (bw : BufferedWriter α) :
    Except String (List α) :=
  match bw.tmp with
  | none => .ok bw.buf
  | some _ =>
    match Flush env bw with
    | .error e => .error e
    | .ok bw' =>
      if env.readOk then .ok (bw'.tmp.getD []) else .error "storage read error"

/-- Close resets the in-memory buffer and closes and deletes the temp
file.  Divergence from the source, stated explicitly: the Go method
never nils bw.tmp, so after Close a stale closed handle remains and any
later operation that touches the backing store (Reader via Stat, Flush
via WriteTo of a nonempty buffer, and hence a spill-sized Sync) fails
with a file-closed error; this model collapses the disposed writer to
the never-created state, which coincides with the source exactly when no
temp file was ever created (tmp was already none, where Go's Close only
resets the buffer).  Theorems about operations performed after a Close
therefore carry the hypothesis that the session never owned a backing
store, and assert nothing about the collapsed error paths. -/
def Close (_bw : BufferedWriter α) : BufferedWriter α :=
  ⟨none, []⟩

/-- The logical content: backing store followed by the in-memory tail. -/
def content (bw : BufferedWriter α) : List α :=
  bw.tmp.getD [] ++ bw.buf

theorem content_Write (bw : BufferedWriter α) (p : List α) :
    (bw.Write p).content = bw.content ++ p := by
  simp [Write, content]

theorem Write_Write (bw : BufferedWriter α) (p q : List α) :
    (bw.Write p).Write q = bw.Write (p ++ q) := by
  simp [Write]

theorem Flush_ok (env : StorageEnv) (bw : BufferedWriter α)
    (h : env.writeOk = true) :
    ∃ bw', Flush env bw = .ok bw' ∧ bw'.content = bw.content := by
  unfold Flush
  cases htmp : bw.tmp with
  | none => exact ⟨bw, rfl, rfl⟩
  | some t =>
    refine ⟨⟨some (t ++ bw.buf), []⟩, by simp [h], ?_⟩
    simp [content, htmp]

theorem Sync_ok (env : StorageEnv) (size : List α → Nat)
    (bw : BufferedWriter α) (hc : env.createOk = true)
    (hw : env.writeOk = true) :
    ∃ bw', Sync env size bw = .ok bw' ∧ bw'.content = bw.content := by
  unfold Sync
  by_cases hsz : size bw.buf < chunk
  · exact ⟨bw, by simp [hsz], rfl⟩
  · simp only [hsz, if_false]
    cases htmp : bw.tmp with
    | some t =>
      obtain ⟨bw', h1, h2⟩ := Flush_ok env bw hw
      exact ⟨bw', h1, h2⟩
    | none =>
      simp only [hc, if_true]
      obtain ⟨bw', h1, h2⟩ :=
        Flush_ok env (⟨some [], bw.buf⟩ : BufferedWriter α) hw
      refine ⟨bw', h1, ?_⟩
      rw [h2]
      simp [content, htmp]

theorem Flush_tmp_none (env : StorageEnv) (bw : BufferedWriter α)
    (h : bw.tmp = none) : Flush env bw = .ok bw := by
  unfold Flush
  rw [h]

theorem Bytes_tmp_none (env : StorageEnv) (bw : BufferedWriter α)
    (h : bw.tmp = none) : Bytes env bw = .ok bw.buf := by
  unfold Bytes
  rw [h]

theorem Reader_envOK (bw : BufferedWriter α) :
    Reader envOK bw = .ok bw.content := by
  unfold Reader
  cases htmp : bw.tmp with
  | none => simp [content, htmp]
  | some t => simp [content, htmp, Flush, envOK]

theorem Bytes_envOK (bw : BufferedWriter α) :
    Bytes envOK bw = .ok bw.content := by
  unfold Bytes
  cases htmp : bw.tmp with
  | none => simp [content, htmp]
  | some t => simp [content, htmp, Flush, envOK]

end BufferedWriter

/-! ## The session token stream

The worksheet bytes the stream writer accumulates are markup produced by
writeCell and the row markers; the external XML encoder and decoder
(encoding/xml) are inverse on this markup, so the buffer content is
embedded at the granularity of markup tokens.  A cell token carries the
xlsxC fields that writeCell serializes. -/

/-- The xlsxC cell element: reference (character codes), style id, type
tag, literal value, and the xml space attribute. -/
structure XlsxC where
  R : List Nat
  S : Nat
  T : String
  V : String
  space : Bool
deriving DecidableEq

/-- One markup token of the buffered worksheet stream. -/
inductive MTok where
  | rowStart (r : Nat)
  | rowEnd
  | cell (c : XlsxC)
  | tableParts (rid : Nat)
  | raw (s : String)
deriving DecidableEq

/-- Approximate serialized byte length of a cell element, following the
shape writeCell emits (markup escaping of the value is elided in the size
model; it only influences when a spill happens, not what is stored). -/
def cellSize (c : XlsxC) : Nat :=
  2 + (if c.space then 22 else 0) + 5 + c.R.length +
    (if c.S ≠ 0 then 5 + (natDigits c.S).length else 0) +
    (if c.T ≠ "" then 6 + c.T.length else 0) + 1 +
    (if c.V ≠ "" then 7 + c.V.length else 0) + 4

/-- Approximate serialized byte length of one token. -/
def tokSize : MTok → Nat
  | .rowStart r => 9 + (natDigits r).length
  | .rowEnd => 6
  | .cell c => cellSize c
  | .tableParts rid => 62 + (natDigits rid).length
  | .raw s => s.length

/-- Byte-length measure of a token list, the quantity the spill threshold
of Sync is compared against. -/
def tokListSize (l : List MTok) : Nat :=
  (l.map tokSize).sum

/-! ## Data model of the session -/

/-- Table format options (the parsed form of the format argument of
AddTable; the JSON parsing itself is external). -/
structure FormatSet where
  tableName : List Nat
  tableStyle : String
  showFirstColumn : Bool
  showLastColumn : Bool
  showRowStripes : Bool
  showColumnStripes : Bool
deriving DecidableEq

/-- The serialized table artifact AddTable registers. -/
structure XlsxTable where
  id : Nat
  name : List Nat
  ref : List Nat
  columns : List String
  style : FormatSet
deriving DecidableEq

/-- The slice of the owning document the session touches: the installed
sheet artifacts keyed by sheet id, the parsed-sheet and validity caches,
the number of existing tables, the relationship counter, the saved table
artifacts and the content-type registrations. -/
structure FileModel where
  xlsx : List (Nat × List MTok)
  sheetCache : List Nat
  checked : List Nat
  tableCount : Nat
  relsCount : Nat
  tables : List (Nat × XlsxTable)
  contentTypes : List Nat
deriving DecidableEq

/-- Lookup of an installed artifact by sheet id. -/
def lookupArtifact (m : List (Nat × List MTok)) (k : Nat) :
    Option (List MTok) :=
  (m.find? fun p => p.1 == k).map fun p => p.2

/-- Replace or insert an installed artifact. -/
def setArtifact (m : List (Nat × List MTok)) (k : Nat) (v : List MTok) :
    List (Nat × List MTok) :=
  (m.filter fun p => p.1 ≠ k) ++ [(k, v)]

/-- The StreamWriter session state of src/stream.go: the owning file, the
target sheet id, the elastic buffer, the deferred table-parts fragment
(the relationship id it references), and the serialized skeleton tails
written at finalize (fields 7-37 and field 39 of the worksheet, supplied
externally). -/
structure StreamWriter where
  file : FileModel
  sheetID : Nat
  rawData : BufferedWriter MTok
  tableParts : Option Nat
  wsClose1 : List MTok
  wsClose2 : List MTok
deriving DecidableEq

/-- An input value of SetRow together with the style id it carries when
wrapped in a Cell struct (plain values carry style id 0). -/
structure CellIn where
  s : Nat
  val : CellVal
deriving DecidableEq

namespace StreamWriter

/-- writeCell of src/stream.go: serialize one xlsxC into the buffer. -/
def writeCell (rd : BufferedWriter MTok) (c : XlsxC) : BufferedWriter MTok :=
  rd.Write [.cell c]

/-- The cell loop of SetRow: for each value compute the absolute cell
reference, encode the value, and serialize; an addressing failure aborts
at once, an encoder failure emits the closing row marker before
returning the error. -/
def writeRowCells (row : Nat) : Nat → List CellIn → BufferedWriter MTok →
    Except String Unit × BufferedWriter MTok
  | _, [], rd => (.ok (), rd)
  | c, v :: vs, rd =>
    match CoordinatesToCellName c row with
    | .error e => (.error e, rd)
    | .ok name =>
      match setCellValFunc v.val with
      | .error e => (.error e, rd.Write [.rowEnd])
      | .ok out =>
        writeRowCells row (c + 1) vs
          (writeCell rd ⟨name, v.s, out.t, out.v, out.space⟩)

/-- SetRow of src/stream.go: parse the starting coordinate, emit the
opening row marker, the cells, the closing marker, then Sync. -/
def SetRow (env : StorageEnv) (sw : StreamWriter) (axis : List Nat)
    (values : List CellIn) : Except String Unit × StreamWriter :=
  match CellNameToCoordinates axis with
  | .error e => (.error e, sw)
  | .ok (col, row) =>
    let rd := sw.rawData.Write [.rowStart row]
    match writeRowCells row col values rd with
    | (.error e, rd') => (.error e, { sw with rawData := rd' })
    | (.ok _, rd') =>
      let rd2 := rd'.Write [.rowEnd]
      match rd2.Sync env tokListSize with
      | .error e => (.error e, { sw with rawData := rd2 })
      | .ok rd3 => (.ok (), { sw with rawData := rd3 })

/-- getRowElement of src/stream.go: does the token open a row element
whose row-number attribute equals the target? -/
def isTargetRow (hrow : Nat) : MTok → Bool
  | .rowStart r => r == hrow
  | _ => false

/-- The DecodeElement step: after a matching row opening, collect the
child cells until the closing row marker; none models a decode error on
an unterminated element. -/
def decodeRowCells : List MTok → Option (List XlsxC × List MTok)
  | [] => none
  | .rowEnd :: rest => some ([], rest)
  | .cell c :: rest =>
    match decodeRowCells rest with
    | none => none
    | some (cs, r) => some (c :: cs, r)
  | .rowStart _ :: rest => decodeRowCells rest
  | .tableParts _ :: rest => decodeRowCells rest
  | .raw _ :: rest => decodeRowCells rest

/-- The per-cell loop of getRowValues: parse each cell reference, keep
the cells within the requested column range, store their literal text at
the column offset. -/
def applyRowCells (hcol vcol : Nat) : List XlsxC → List String →
    Except String (List String)
  | [], res => .ok res
  | c :: cs, res =>
    match CellNameToCoordinates c.R with
    | .error e => .error e
    | .ok (col, _) =>
      if col < hcol || vcol < col then applyRowCells hcol vcol cs res
      else applyRowCells hcol vcol cs (res.set (col - hcol) c.V)

/-- The token loop of getRowValues: scan forward for the matching row,
return all-empty results at end of stream. -/
def scanTokens (hrow hcol vcol : Nat) : List MTok →
    Except String (List String)
  | [] => .ok (List.replicate (vcol - hcol + 1) "")
  | .rowStart r :: rest =>
    if r = hrow then
      match decodeRowCells rest with
      | none => .error "XML decode error"
      | some (cs, _) =>
        applyRowCells hcol vcol cs (List.replicate (vcol - hcol + 1) "")
    else scanTokens hrow hcol vcol rest
  | _ :: rest => scanTokens hrow hcol vcol rest

/-- getRowValues of src/stream.go: open a read view over the buffer and
scan for the target row. -/
def getRowValues (env : StorageEnv) (sw : StreamWriter)
    (hrow hcol vcol : Nat) : Except String (List String) :=
  match sw.rawData.Reader env with
  | .error e => .error e
  | .ok toks => scanTokens hrow hcol vcol toks

/-- A coordinate rectangle. -/
structure Rect where
  hc : Nat
  hr : Nat
  vc : Nat
  vr : Nat
deriving DecidableEq

/-- Modelled from the spec: sortCoordinates (repository lib.go, not under
src/) normalizes a rectangle so the top-left corner precedes the
bottom-right corner. -/
def sortCoordinates (r : Rect) : Rect :=
  ⟨min r.hc r.vc, min r.hr r.vr, max r.hc r.vc, max r.hr r.vr⟩

/-- The rectangle correction of AddTable (src/stream.go lines 114-123):
normalize, then widen a single-row rectangle by one row. -/
def addTableCoords (r : Rect) : Rect :=
  let s := sortCoordinates r
  if s.hr = s.vr then { s with vr := s.vr + 1 } else s

/-- Modelled from the spec: areaRangeToCoordinates (repository table.go,
not under src/): parse the two corner references. -/
def areaRangeToCoordinates (hcell vcell : List Nat) : Except String Rect :=
  match CellNameToCoordinates hcell with
  | .error e => .error e
  | .ok (c1, r1) =>
    match CellNameToCoordinates vcell with
    | .error e => .error e
    | .ok (c2, r2) => .ok ⟨c1, r1, c2, r2⟩

/-- Modelled from the spec: coordinatesToAreaRef (repository file outside
src/): render the rectangle as corner:corner (58 is the colon code). -/
def coordinatesToAreaRef (r : Rect) : Except String (List Nat) :=
  match CoordinatesToCellName r.hc r.hr with
  | .error e => .error e
  | .ok a =>
    match CoordinatesToCellName r.vc r.vr with
    | .error e => .error e
    | .ok b => .ok (a ++ [58] ++ b)

/-- Character codes of the word Table, the default table-name stem. -/
def tableWord : List Nat :=
  [84, 97, 98, 108, 101]

/-- AddTable of src/stream.go: correct the rectangle, harvest the header
row through the partial scanner, build the table artifact, allocate a
relationship id, and install the deferred table-parts fragment.  The
format argument arrives already parsed; none stands for a parse
failure. -/
def AddTable (env : StorageEnv) (sw : StreamWriter) (hcell vcell : List Nat)
    (format : Option FormatSet) : Except String Unit × StreamWriter :=
  match format with
  | none => (.error "invalid table format", sw)
  | some fs =>
    match areaRangeToCoordinates hcell vcell with
    | .error e => (.error e, sw)
    | .ok r0 =>
      let r := addTableCoords r0
      match coordinatesToAreaRef r with
      | .error e => (.error e, sw)
      | .ok ref =>
        match getRowValues env sw r.hr r.hc r.vc with
        | .error e => (.error e, sw)
        | .ok tableHeaders =>
          let tableID := sw.file.tableCount + 1
          let name :=
            if fs.tableName.isEmpty then tableWord ++ natDigits tableID
            else fs.tableName
          let table : XlsxTable := ⟨tableID, name, ref, tableHeaders, fs⟩
          let rID := sw.file.relsCount + 1
          (.ok (),
            { sw with
              tableParts := some rID,
              file :=
                { sw.file with
                  tableCount := tableID,
                  relsCount := rID,
                  contentTypes := sw.file.contentTypes ++ [tableID],
                  tables := sw.file.tables ++ [(tableID, table)] } })

/-- The deferred table-parts markup spliced in at finalize. -/
def tablePartsToks : Option Nat → List MTok
  | none => []
  | some rid => [.tableParts rid]

/-- Flush of src/stream.go: append the closing skeleton markup and the
deferred table fragment, force the buffer to storage, drop the cached
sheet representation, drain the buffer into the installed artifact, and
dispose the buffer.  A failure of the initial storage flush returns
before the Close is deferred; a failure while draining still runs the
deferred Close. -/
def Flush (env : StorageEnv) (sw : StreamWriter) :
    Except String Unit × StreamWriter :=
  let rd := sw.rawData.Write
    ([.raw "</sheetData>"] ++ sw.wsClose1 ++ tablePartsToks sw.tableParts ++
      sw.wsClose2 ++ [.raw "</worksheet>"])
  match rd.Flush env with
  | .error e => (.error e, { sw with rawData := rd })
  | .ok rd1 =>
    let f1 :=
      { sw.file with
        sheetCache := sw.file.sheetCache.filter fun k => k ≠ sw.sheetID,
        checked := sw.file.checked.filter fun k => k ≠ sw.sheetID }
    match rd1.Bytes env with
    | .error e => (.error e, { sw with file := f1, rawData := rd1.Close })
    | .ok b =>
      (.ok (),
        { sw with
          file := { f1 with xlsx := setArtifact f1.xlsx sw.sheetID b },
          rawData := rd1.Close })

/-! ### Correctness machinery for the partial scanner -/

/-- The cell tokens of one emitted row: each pair carries the 1-based
column number and the remaining xlsxC payload; the reference is the cell
name of the column and the row. -/
def rowCellToks (hrow : Nat) (ps : List (Nat × XlsxC)) : List MTok :=
  ps.map fun p => .cell { p.2 with R := cellName p.1 hrow }

/-- The literal text of the last cell of the row occupying a given
column, or empty when the column is absent; this is what the scan
returns at the offset of that column. -/
def lastColV (col : Nat) (ps : List (Nat × XlsxC)) : String :=
  match ps.reverse.find? (fun p => p.1 == col) with
  | some p => p.2.V
  | none => ""

/-- The result-array updates the cell loop of getRowValues performs. -/
def updRes (hcol vcol : Nat) (ps : List (Nat × XlsxC)) (res : List String) :
    List String :=
  ps.foldl
    (fun r p =>
      if decide (hcol ≤ p.1) && decide (p.1 ≤ vcol) then
        r.set (p.1 - hcol) p.2.V
      else r)
    res

theorem scanTokens_skip (hrow hcol vcol : Nat) :
    ∀ (pre rest : List MTok), (∀ t ∈ pre, isTargetRow hrow t = false) →
      scanTokens hrow hcol vcol (pre ++ rest) =
        scanTokens hrow hcol vcol rest := by
  intro pre
  induction pre with
  | nil => intro rest _; rfl
  | cons t pre ih =>
    intro rest h
    have ht : isTargetRow hrow t = false := h t (List.mem_cons_self t pre)
    have hrest : ∀ x ∈ pre, isTargetRow hrow x = false := fun x hx =>
      h x (List.mem_cons_of_mem t hx)
    cases t with
    | rowStart r =>
      have hne : ¬ r = hrow := by
        simp [isTargetRow] at ht
        exact ht
      show scanTokens hrow hcol vcol (MTok.rowStart r :: (pre ++ rest)) = _
      simp only [scanTokens, hne, if_false]
      exact ih rest hrest
    | rowEnd => exact ih rest hrest
    | cell c => exact ih rest hrest
    | tableParts rid => exact ih rest hrest
    | raw s => exact ih rest hrest

theorem scanTokens_nomatch (hrow hcol vcol : Nat) (toks : List MTok)
    (h : ∀ t ∈ toks, isTargetRow hrow t = false) :
    scanTokens hrow hcol vcol toks =
      .ok (List.replicate (vcol - hcol + 1) "") := by
  have := scanTokens_skip hrow hcol vcol toks [] h
  rw [List.append_nil] at this
  rw [this]
  rfl

theorem decodeRowCells_row (hrow : Nat) :
    ∀ (ps : List (Nat × XlsxC)) (post : List MTok),
      decodeRowCells (rowCellToks hrow ps ++ .rowEnd :: post) =
        some (ps.map fun p => { p.2 with R := cellName p.1 hrow }, post) := by
  intro ps
  induction ps with
  | nil => intro post; rfl
  | cons p ps ih =>
    intro post
    show decodeRowCells (.cell _ :: (rowCellToks hrow ps ++ .rowEnd :: post)) = _
    simp only [decodeRowCells, ih post, List.map_cons]

theorem applyRowCells_eq_upd (hrow hcol vcol : Nat) (hr : 1 ≤ hrow) :
    ∀ (ps : List (Nat × XlsxC)) (res : List String),
      (∀ p ∈ ps, 1 ≤ p.1) →
      applyRowCells hcol vcol
          (ps.map fun p => { p.2 with R := cellName p.1 hrow }) res =
        .ok (updRes hcol vcol ps res) := by
  intro ps
  induction ps with
  | nil => intro res _; rfl
  | cons p ps ih =>
    intro res hps
    have hp1 : 1 ≤ p.1 := hps p (List.mem_cons_self p ps)
    have hrest : ∀ x ∈ ps, 1 ≤ x.1 := fun x hx =>
      hps x (List.mem_cons_of_mem p hx)
    show applyRowCells hcol vcol (.mk (cellName p.1 hrow) _ _ _ _ :: _) res = _
    simp only [applyRowCells, cellName_roundtrip p.1 hrow hp1 hr]
    by_cases hin : p.1 < hcol ∨ vcol < p.1
    · have hc1 : (p.1 < hcol || decide (vcol < p.1)) = true := by
        rcases hin with h | h <;> simp [h]
      have hc2 : (decide (hcol ≤ p.1) && decide (p.1 ≤ vcol)) = false := by
        rcases hin with h | h <;> simp <;> omega
      simp only [hc1, if_true, updRes, List.foldl_cons, hc2, Bool.false_eq_true,
        if_false]
      exact ih res hrest
    · push_neg at hin
      have hc1 : (decide (p.1 < hcol) || decide (vcol < p.1)) = false := by
        simp
        omega
      have hc2 : (decide (hcol ≤ p.1) && decide (p.1 ≤ vcol)) = true := by
        simp
        omega
      simp only [decide_eq_true_eq] at hc1
      simp only [hc1, if_false, updRes, List.foldl_cons, hc2, if_true]
      exact ih (res.set (p.1 - hcol) p.2.V) hrest

theorem length_updRes (hcol vcol : Nat) :
    ∀ (ps : List (Nat × XlsxC)) (res : List String),
      (updRes hcol vcol ps res).length = res.length := by
  intro ps
  induction ps with
  | nil => intro res; rfl
  | cons p ps ih =>
    intro res
    show (updRes hcol vcol ps _).length = _
    by_cases h : (decide (hcol ≤ p.1) && decide (p.1 ≤ vcol)) = true
    · simp only [updRes, List.foldl_cons, h, if_true]
      rw [show List.foldl _ _ ps = updRes hcol vcol ps (res.set (p.1 - hcol) p.2.V) from rfl]
      rw [ih]
      exact List.length_set res _ _
    · simp only [updRes, List.foldl_cons, h, if_false]
      exact ih res

theorem set_getD_self :
    ∀ (l : List String) (j : Nat) (v d : String), j < l.length →
      (l.set j v).getD j d = v := by
  intro l
  induction l with
  | nil => intro j v d h; cases h
  | cons a l ih =>
    intro j v d h
    cases j with
    | zero => rfl
    | succ j =>
      show (l.set j v).getD j d = v
      exact ih j v d (by simpa using h)

theorem set_getD_ne :
    ∀ (l : List String) (i j : Nat) (v d : String), i ≠ j →
      (l.set i v).getD j d = l.getD j d := by
  intro l
  induction l with
  | nil => intro i j v d _; cases i <;> rfl
  | cons a l ih =>
    intro i j v d hij
    cases i with
    | zero =>
      cases j with
      | zero => exact absurd rfl hij
      | succ j => rfl
    | succ i =>
      cases j with
      | zero => rfl
      | succ j =>
        show (l.set i v).getD j d = l.getD j d
        exact ih i j v d (by omega)

theorem updRes_getD (hcol vcol : Nat) :
    ∀ (ps : List (Nat × XlsxC)) (res : List String) (j : Nat),
      j < res.length → hcol + j ≤ vcol →
      (updRes hcol vcol ps res).getD j "" =
        (match ps.reverse.find? (fun p => p.1 == hcol + j) with
          | some p => p.2.V
          | none => res.getD j "") := by
  intro ps
  induction ps with
  | nil => intro res j _ _; rfl
  | cons p ps ih =>
    intro res j hj hjv
    have hstep :
        updRes hcol vcol (p :: ps) res =
          updRes hcol vcol ps
            (if decide (hcol ≤ p.1) && decide (p.1 ≤ vcol) then
              res.set (p.1 - hcol) p.2.V
            else res) := by
      simp only [updRes, List.foldl_cons]
    rw [hstep]
    have hlen :
        (if decide (hcol ≤ p.1) && decide (p.1 ≤ vcol) then
            res.set (p.1 - hcol) p.2.V
          else res).length = res.length := by
      by_cases h : (decide (hcol ≤ p.1) && decide (p.1 ≤ vcol)) = true
      · simp [h]
      · simp only [h, Bool.false_eq_true]
        simp [h]
    rw [ih _ j (by rw [hlen]; exact hj) hjv]
    have hrev : (p :: ps).reverse = ps.reverse ++ [p] := by simp
    rw [hrev, List.find?_append]
    cases hfind : ps.reverse.find? (fun q => q.1 == hcol + j) with
    | some x => simp [Option.or]
    | none =>
      simp only [Option.or]
      by_cases hpj : p.1 = hcol + j
      · have hfp : (fun q => q.1 == hcol + j) p = true := by simp [hpj]
        simp only [List.find?, hfp]
        have hc : (decide (hcol ≤ p.1) && decide (p.1 ≤ vcol)) = true := by
          simp
          omega
        simp only [hc, if_true]
        have : p.1 - hcol = j := by omega
        rw [this]
        exact set_getD_self res j p.2.V "" hj
      · have hfp : (fun q => q.1 == hcol + j) p = false := by simp [hpj]
        simp only [List.find?, hfp]
        by_cases hc : (decide (hcol ≤ p.1) && decide (p.1 ≤ vcol)) = true
        · simp only [hc, if_true]
          have hne : p.1 - hcol ≠ j := by
            simp at hc
            omega
          exact set_getD_ne res (p.1 - hcol) j p.2.V "" hne
        · simp only [hc, Bool.false_eq_true, if_false]

/-- What a found row scans to: the result list is indexed by column
offset and holds, per offset, the literal text of the last cell at that
column, empty when the column is absent from the row. -/
theorem scanTokens_found (hrow hcol vcol : Nat) (pre post : List MTok)
    (ps : List (Nat × XlsxC)) (hpre : ∀ t ∈ pre, isTargetRow hrow t = false)
    (hps : ∀ p ∈ ps, 1 ≤ p.1) (hr : 1 ≤ hrow) (hhv : hcol ≤ vcol) :
    scanTokens hrow hcol vcol
        (pre ++ .rowStart hrow :: (rowCellToks hrow ps ++ .rowEnd :: post)) =
      .ok ((List.range (vcol - hcol + 1)).map fun j => lastColV (hcol + j) ps) := by
  rw [scanTokens_skip hrow hcol vcol pre _ hpre]
  show (if hrow = hrow then _ else _) = _
  simp only [if_true]
  rw [decodeRowCells_row hrow ps post]
  show applyRowCells hcol vcol _ _ = _
  rw [applyRowCells_eq_upd hrow hcol vcol hr ps _ hps]
  congr 1
  have hlen1 :
      (updRes hcol vcol ps (List.replicate (vcol - hcol + 1) "")).length =
        vcol - hcol + 1 := by
    rw [length_updRes]
    exact List.length_replicate _ _
  have hlen2 :
      ((List.range (vcol - hcol + 1)).map fun j => lastColV (hcol + j) ps).length =
        vcol - hcol + 1 := by
    simp
  refine List.ext_getElem (by rw [hlen1, hlen2]) ?_
  intro i h1 h2
  have hi : i < vcol - hcol + 1 := by rwa [hlen1] at h1
  have hgd1 :
      (updRes hcol vcol ps (List.replicate (vcol - hcol + 1) "")).getD i "" =
        (updRes hcol vcol ps (List.replicate (vcol - hcol + 1) ""))[i] :=
    List.getD_eq_getElem _ _ h1
  have hgd2 :
      (updRes hcol vcol ps (List.replicate (vcol - hcol + 1) "")).getD i "" =
        lastColV (hcol + i) ps := by
    rw [updRes_getD hcol vcol ps _ i (by simp [hi]) (by omega)]
    unfold lastColV
    cases hfind : ps.reverse.find? (fun p => p.1 == hcol + i) with
    | some x => rfl
    | none => simp [List.getD]
  rw [← hgd1, hgd2]
  simp

/-! ### The cells a successful emission writes -/

/-- The (column, xlsxC payload) pairs SetRow produces for a value list
starting at a given column: consecutive columns, style id and encoder
output per value.  The reference field is filled in by rowCellToks. -/
def cellPairsOf (row : Nat) : Nat → List CellIn → List (Nat × XlsxC)
  | _, [] => []
  | c, v :: vs =>
    (c, ⟨cellName c row, v.s, (encOutD v.val).t, (encOutD v.val).v,
      (encOutD v.val).space⟩) :: cellPairsOf row (c + 1) vs

theorem writeRowCells_ok (row : Nat) (hrow : 1 ≤ row) :
    ∀ (values : List CellIn) (c : Nat) (rd : BufferedWriter MTok),
      1 ≤ c → (∀ v ∈ values, isOkE (setCellValFunc v.val) = true) →
      writeRowCells row c values rd =
        (.ok (), rd.Write (rowCellToks row (cellPairsOf row c values))) := by
  intro values
  induction values with
  | nil =>
    intro c rd _ _
    simp [writeRowCells, rowCellToks, cellPairsOf, BufferedWriter.Write]
  | cons v vs ih =>
    intro c rd hc henc
    have hv : isOkE (setCellValFunc v.val) = true :=
      henc v (List.mem_cons_self v vs)
    have hvs : ∀ x ∈ vs, isOkE (setCellValFunc x.val) = true := fun x hx =>
      henc x (List.mem_cons_of_mem v hx)
    show writeRowCells row c (v :: vs) rd = _
    obtain ⟨out, hout⟩ : ∃ out, setCellValFunc v.val = .ok out := by
      cases hsv : setCellValFunc v.val with
      | ok o => exact ⟨o, rfl⟩
      | error e => rw [hsv] at hv; simp [isOkE] at hv
    have hencd : encOutD v.val = out := by
      rw [encOutD, hout]
    simp only [writeRowCells, coordinatesToCellName_ok c row hc hrow, hout]
    rw [ih (c + 1) _ (by omega) hvs]
    simp only [rowCellToks, cellPairsOf, List.map_cons, writeCell,
      BufferedWriter.Write_Write, hencd]
    rfl

theorem SetRow_ok (sw : StreamWriter) (c0 r : Nat) (values : List CellIn)
    (hc0 : 1 ≤ c0) (hr : 1 ≤ r)
    (henc : ∀ v ∈ values, isOkE (setCellValFunc v.val) = true) :
    ∃ rd3, SetRow envOK sw (cellName c0 r) values = (.ok (), { sw with rawData := rd3 }) ∧
      rd3.content = sw.rawData.content ++
        .rowStart r :: (rowCellToks r (cellPairsOf r c0 values) ++ .rowEnd :: []) := by
  unfold SetRow
  rw [cellName_roundtrip c0 r hc0 hr]
  dsimp only
  rw [writeRowCells_ok r hr values c0 _ hc0 henc]
  dsimp only
  obtain ⟨rd3, hsync, hcontent⟩ :=
    BufferedWriter.Sync_ok envOK tokListSize
      (((sw.rawData.Write [.rowStart r]).Write
          (rowCellToks r (cellPairsOf r c0 values))).Write [.rowEnd])
      rfl rfl
  refine ⟨rd3, ?_, ?_⟩
  · simp only [hsync]
  · rw [hcontent]
    simp only [BufferedWriter.content_Write, List.append_assoc,
      List.cons_append, List.nil_append, List.singleton_append]

/-- Under a fully functioning storage environment, Flush of a session
that never spilled to a backing store succeeds and leaves a genuinely
fresh buffer (here the disposal model is exact: the Go Close of a
never-created temp file only resets the in-memory region) with the
drained artifact installed. -/
theorem Flush_envOK_nospill (sw : StreamWriter) (h : sw.rawData.tmp = none) :
    Flush envOK sw = (.ok (),
      { sw with
        file :=
          { sw.file with
            sheetCache := sw.file.sheetCache.filter fun k => k ≠ sw.sheetID,
            checked := sw.file.checked.filter fun k => k ≠ sw.sheetID,
            xlsx := setArtifact sw.file.xlsx sw.sheetID
              (sw.rawData.buf ++
                ([.raw "</sheetData>"] ++ sw.wsClose1 ++
                  tablePartsToks sw.tableParts ++ sw.wsClose2 ++
                  [.raw "</worksheet>"])) },
        rawData := ⟨none, []⟩ }) := by
  have hrd : (sw.rawData.Write
      ([.raw "</sheetData>"] ++ sw.wsClose1 ++ tablePartsToks sw.tableParts ++
        sw.wsClose2 ++ [.raw "</worksheet>"])).tmp = none := h
  unfold Flush
  dsimp only
  rw [BufferedWriter.Flush_tmp_none envOK _ hrd]
  dsimp only
  rw [BufferedWriter.Bytes_tmp_none envOK _ hrd]
  rfl

theorem mem_cellPairsOf (row : Nat) :
    ∀ (values : List CellIn) (c : Nat) (x : Nat × XlsxC),
      x ∈ cellPairsOf row c values → c ≤ x.1 := by
  intro values
  induction values with
  | nil => intro c x hx; cases hx
  | cons v vs ih =>
    intro c x hx
    rcases List.mem_cons.1 hx with h | h
    · subst h; exact le_refl c
    · have := ih (c + 1) x h
      omega

theorem lastColV_cons_ne (col : Nat) (p : Nat × XlsxC)
    (ps : List (Nat × XlsxC)) (h : p.1 ≠ col) :
    lastColV col (p :: ps) = lastColV col ps := by
  unfold lastColV
  rw [List.reverse_cons, List.find?_append]
  cases hf : ps.reverse.find? (fun q => q.1 == col) with
  | some x => simp [Option.or]
  | none =>
    have hp : (fun q : Nat × XlsxC => q.1 == col) p = false := by simp [h]
    simp [Option.or, List.find?, hp]

theorem lastColV_cellPairsOf (row : Nat) :
    ∀ (values : List CellIn) (c0 i : Nat) (hi : i < values.length),
      lastColV (c0 + i) (cellPairsOf row c0 values) =
        (encOutD (values.get ⟨i, hi⟩).val).v := by
  intro values
  induction values with
  | nil => intro c0 i hi; exact absurd hi (by simp)
  | cons v vs ih =>
    intro c0 i hi
    cases i with
    | zero =>
      show lastColV (c0 + 0)
        ((c0, ⟨cellName c0 row, v.s, (encOutD v.val).t, (encOutD v.val).v,
          (encOutD v.val).space⟩) :: cellPairsOf row (c0 + 1) vs) = _
      unfold lastColV
      rw [List.reverse_cons, List.find?_append]
      have hnone :
          (cellPairsOf row (c0 + 1) vs).reverse.find?
            (fun q => q.1 == c0 + 0) = none := by
        rw [List.find?_eq_none]
        intro x hx
        have hx' : x ∈ cellPairsOf row (c0 + 1) vs := List.mem_reverse.1 hx
        have := mem_cellPairsOf row vs (c0 + 1) x hx'
        simp
        omega
      rw [hnone]
      simp [Option.or, List.find?]
    | succ k =>
      show lastColV (c0 + (k + 1))
        ((c0, ⟨cellName c0 row, v.s, (encOutD v.val).t, (encOutD v.val).v,
          (encOutD v.val).space⟩) :: cellPairsOf row (c0 + 1) vs) = _
      rw [lastColV_cons_ne _ _ _ (by simp)]
      have hcast : c0 + (k + 1) = (c0 + 1) + k := by omega
      rw [hcast]
      exact ih (c0 + 1) k (by simpa using hi)

/-- Under a functioning storage environment, the scan runs over the full
logical buffer content. -/
theorem getRowValues_envOK (sw : StreamWriter) (hrow hcol vcol : Nat) :
    getRowValues envOK sw hrow hcol vcol =
      scanTokens hrow hcol vcol sw.rawData.content := by
  unfold getRowValues
  rw [BufferedWriter.Reader_envOK]

theorem writeRowCells_err (row : Nat) (hrow : 1 ≤ row) (e : String)
    (bad : CellIn) (hbad : setCellValFunc bad.val = .error e) :
    ∀ (pre : List CellIn) (rest : List CellIn) (c : Nat)
      (rd : BufferedWriter MTok), 1 ≤ c →
      (∀ v ∈ pre, isOkE (setCellValFunc v.val) = true) →
      writeRowCells row c (pre ++ bad :: rest) rd =
        (.error e,
          (rd.Write (rowCellToks row (cellPairsOf row c pre))).Write [.rowEnd]) := by
  intro pre
  induction pre with
  | nil =>
    intro rest c rd hc _
    show writeRowCells row c (bad :: rest) rd = _
    simp only [writeRowCells, coordinatesToCellName_ok c row hc hrow, hbad]
    simp [rowCellToks, cellPairsOf, BufferedWriter.Write_Write,
      BufferedWriter.Write]
  | cons v vs ih =>
    intro rest c rd hc henc
    have hv : isOkE (setCellValFunc v.val) = true :=
      henc v (List.mem_cons_self v vs)
    have hvs : ∀ x ∈ vs, isOkE (setCellValFunc x.val) = true := fun x hx =>
      henc x (List.mem_cons_of_mem v hx)
    obtain ⟨out, hout⟩ : ∃ out, setCellValFunc v.val = .ok out := by
      cases hsv : setCellValFunc v.val with
      | ok o => exact ⟨o, rfl⟩
      | error e' => rw [hsv] at hv; simp [isOkE] at hv
    have hencd : encOutD v.val = out := by rw [encOutD, hout]
    show writeRowCells row c (v :: (vs ++ bad :: rest)) rd = _
    simp only [writeRowCells, coordinatesToCellName_ok c row hc hrow, hout]
    rw [ih rest (c + 1) _ (by omega) hvs]
    simp only [rowCellToks, cellPairsOf, List.map_cons, writeCell,
      BufferedWriter.Write_Write, hencd]
    rfl

/-! ## Concrete session states used by the witnesses -/

/-- An empty owning-file model. -/
def file0 : FileModel :=
  ⟨[], [], [], 0, 0, [], []⟩

/-- A fresh session on sheet 1 with an empty buffer. -/
def sw0 : StreamWriter :=
  ⟨file0, 1, ⟨none, []⟩, none, [], []⟩

/-- A concrete cell at column 2 holding the string hi. -/
def cellHi : XlsxC :=
  ⟨cellName 2 1, 0, "str", "hi", false⟩

/-- A session whose buffer already holds row 1 with the single cell B1. -/
def sw9 : StreamWriter :=
  ⟨file0, 1, ⟨none, [.rowStart 1, .cell cellHi, .rowEnd]⟩, none, [], []⟩

/-! ## Claims about emission and the partial scanner -/

/-- C1: a supported value written at row r, column c0+i by SetRow is
returned by getRowValues, for any requested column range containing that
column, at the offset of the column, as literal text equal to the cell
encoder's canonical output for the value. -/
theorem claim_C1 (sw : StreamWriter) (c0 r i hcol vcol : Nat)
    (values : List CellIn) (hc0 : 1 ≤ c0) (hr : 1 ≤ r)
    (henc : ∀ v ∈ values, isOkE (setCellValFunc v.val) = true)
    (hfresh : ∀ t ∈ sw.rawData.content, isTargetRow r t = false)
    (hi : i < values.length) (hlo : hcol ≤ c0 + i) (hhi : c0 + i ≤ vcol) :
    ∃ sw' res,
      SetRow envOK sw (cellName c0 r) values = (.ok (), sw') ∧
      getRowValues envOK sw' r hcol vcol = .ok res ∧
      res[c0 + i - hcol]? = some (encOutD (values.get ⟨i, hi⟩).val).v := by
  obtain ⟨rd3, hset, hcont⟩ := SetRow_ok sw c0 r values hc0 hr henc
  refine ⟨_,
    (List.range (vcol - hcol + 1)).map fun j =>
      lastColV (hcol + j) (cellPairsOf r c0 values),
    hset, ?_, ?_⟩
  · rw [getRowValues_envOK]
    show scanTokens r hcol vcol rd3.content = _
    rw [hcont]
    exact scanTokens_found r hcol vcol sw.rawData.content []
      (cellPairsOf r c0 values) hfresh
      (fun p hp => le_trans hc0 (mem_cellPairsOf r values c0 p hp)) hr
      (by omega)
  · rw [List.getElem?_map, List.getElem?_range (by omega)]
    show some (lastColV (hcol + (c0 + i - hcol)) (cellPairsOf r c0 values)) = _
    have hj : hcol + (c0 + i - hcol) = c0 + i := by omega
    rw [hj, lastColV_cellPairsOf r values c0 i hi]

theorem claim_C1_witness :
    ∃ sw' res,
      SetRow envOK sw0 (cellName 1 1) [⟨0, .intv 7⟩] = (.ok (), sw') ∧
      getRowValues envOK sw' 1 1 1 = .ok res ∧
      res[0]? = some "7" :=
  claim_C1 sw0 1 1 0 1 1 [⟨0, .intv 7⟩] (by decide) (by decide) (by decide)
    (by decide) (by decide) (by decide) (by decide)

/-- C9: a scan over content with no matching row element reaches end of
stream and returns all-empty results without error; a scan that finds the
row returns, per offset of the requested column range, the literal of the
last cell occupying that column, the empty string where the column is
absent from the row. -/
theorem claim_C9 :
    (∀ (sw : StreamWriter) (hrow hcol vcol : Nat),
        (∀ t ∈ sw.rawData.content, isTargetRow hrow t = false) →
        getRowValues envOK sw hrow hcol vcol =
          .ok (List.replicate (vcol - hcol + 1) "")) ∧
    (∀ (sw : StreamWriter) (pre post : List MTok)
        (ps : List (Nat × XlsxC)) (hrow hcol vcol : Nat),
        sw.rawData.content =
          pre ++ .rowStart hrow :: (rowCellToks hrow ps ++ .rowEnd :: post) →
        (∀ t ∈ pre, isTargetRow hrow t = false) →
        (∀ p ∈ ps, 1 ≤ p.1) → 1 ≤ hrow → hcol ≤ vcol →
        getRowValues envOK sw hrow hcol vcol =
          .ok ((List.range (vcol - hcol + 1)).map fun j =>
            lastColV (hcol + j) ps)) := by
  constructor
  · intro sw hrow hcol vcol h
    rw [getRowValues_envOK]
    exact scanTokens_nomatch hrow hcol vcol _ h
  · intro sw pre post ps hrow hcol vcol hc hpre hps hr hhv
    rw [getRowValues_envOK, hc]
    exact scanTokens_found hrow hcol vcol pre post ps hpre hps hr hhv

theorem claim_C9_witness :
    getRowValues envOK sw0 5 1 2 = .ok ["", ""] ∧
    getRowValues envOK sw9 1 1 2 = .ok ["", "hi"] := by
  constructor
  · have h := claim_C9.1 sw0 5 1 2 (by decide)
    rw [h]
    rfl
  · have h := claim_C9.2 sw9 [] [] [(2, cellHi)] 1 1 2 (by rfl) (by decide)
      (by decide) (by decide) (by decide)
    rw [h]
    rfl

/-- C8: when the cell encoder fails on some cell of the row, SetRow stops
writing the remaining cells, still emits the closing row marker so the
stream stays recoverable at the row boundary, and returns the encoder
error; the owning file is untouched. -/
theorem claim_C8 (sw : StreamWriter) (c0 r : Nat) (pre rest : List CellIn)
    (bad : CellIn) (e : String) (hc0 : 1 ≤ c0) (hr : 1 ≤ r)
    (hgood : ∀ v ∈ pre, isOkE (setCellValFunc v.val) = true)
    (hbad : setCellValFunc bad.val = .error e) :
    ∃ sw',
      SetRow envOK sw (cellName c0 r) (pre ++ bad :: rest) = (.error e, sw') ∧
      sw'.rawData.content = sw.rawData.content ++
        .rowStart r :: (rowCellToks r (cellPairsOf r c0 pre) ++ [.rowEnd]) ∧
      sw'.file = sw.file := by
  unfold SetRow
  rw [cellName_roundtrip c0 r hc0 hr]
  dsimp only
  rw [writeRowCells_err r hr e bad hbad pre rest c0 _ hc0 hgood]
  refine ⟨_, rfl, ?_, rfl⟩
  simp only [BufferedWriter.content_Write, List.append_assoc,
    List.singleton_append, List.cons_append, List.nil_append]

theorem claim_C8_witness :
    ∃ sw',
      SetRow envOK sw0 (cellName 1 1) ([⟨0, .intv 3⟩] ++ ⟨0, .timev none⟩ :: []) =
        (.error "time conversion error", sw') ∧
      sw'.rawData.content = sw0.rawData.content ++
        .rowStart 1 :: (rowCellToks 1 (cellPairsOf 1 1 [⟨0, .intv 3⟩]) ++ [.rowEnd]) ∧
      sw'.file = sw0.file :=
  claim_C8 sw0 1 1 [⟨0, .intv 3⟩] [] ⟨0, .timev none⟩ "time conversion error"
    (by decide) (by decide) (by decide) rfl

/-- C10: when the starting coordinate fails to parse, SetRow returns the
addressing error before writing anything; the session, its buffer
included, is exactly as before the call. -/
theorem claim_C10 (env : StorageEnv) (sw : StreamWriter) (axis : List Nat)
    (values : List CellIn) (e : String)
    (h : CellNameToCoordinates axis = .error e) :
    SetRow env sw axis values = (.error e, sw) := by
  unfold SetRow
  rw [h]

theorem claim_C10_witness :
    SetRow envOK sw0 [49] [⟨0, .intv 7⟩] = (.error "invalid cell name", sw0) :=
  claim_C10 envOK sw0 [49] [⟨0, .intv 7⟩] "invalid cell name" rfl

end StreamWriter

/-! ## Byte-level buffer runs (claims about the elastic buffer) -/

/-- One operation of a write/sync interleaving against the byte-level
buffered writer. -/
inductive BufOp where
  | write (p : List Nat)
  | sync
deriving DecidableEq

/-- Execute one operation in the always-successful storage environment;
Sync never fails there, the error branch is unreachable. -/
def bufStep (bw : BufferedWriter Nat) : BufOp → BufferedWriter Nat
  | .write p => bw.Write p
  | .sync =>
    match bw.Sync envOK List.length with
    | .ok bw' => bw'
    | .error _ => bw

/-- Run an operation sequence from the empty writer. -/
def runOps (ops : List BufOp) : BufferedWriter Nat :=
  ops.foldl bufStep ⟨none, []⟩

/-- The bytes an operation sequence writes, in write order. -/
def writtenOf : List BufOp → List Nat
  | [] => []
  | .write p :: rest => p ++ writtenOf rest
  | .sync :: rest => writtenOf rest

theorem content_foldl_bufStep :
    ∀ (ops : List BufOp) (bw : BufferedWriter Nat),
      (ops.foldl bufStep bw).content = bw.content ++ writtenOf ops := by
  intro ops
  induction ops with
  | nil => intro bw; simp [writtenOf]
  | cons op ops ih =>
    intro bw
    rw [List.foldl_cons, ih]
    cases op with
    | write p =>
      show (bufStep bw (.write p)).content ++ writtenOf ops = _
      rw [show bufStep bw (.write p) = bw.Write p from rfl,
        BufferedWriter.content_Write]
      simp [writtenOf]
    | sync =>
      obtain ⟨bw', hs, hc⟩ :=
        BufferedWriter.Sync_ok envOK List.length bw rfl rfl
      show (bufStep bw .sync).content ++ writtenOf ops = _
      rw [show bufStep bw .sync = match bw.Sync envOK List.length with
          | .ok b => b
          | .error _ => bw from rfl, hs]
      rw [hc]
      rfl

/-- C2: draining the elastic buffer after any interleaving of writes and
spill checks returns exactly the written bytes in write order, however
many spills occurred; in particular for single writes of
threshold-1, threshold, threshold+1 and 10 times the threshold bytes
followed by a spill check, with the threshold fixed at 2 to the 24. -/
theorem claim_C2 :
    (∀ ops : List BufOp,
        BufferedWriter.Bytes envOK (runOps ops) = .ok (writtenOf ops)) ∧
    chunk = 2 ^ 24 ∧
    BufferedWriter.Bytes envOK
        (runOps [.write (List.replicate (chunk - 1) 7), .sync]) =
      .ok (List.replicate (chunk - 1) 7) ∧
    BufferedWriter.Bytes envOK
        (runOps [.write (List.replicate chunk 7), .sync]) =
      .ok (List.replicate chunk 7) ∧
    BufferedWriter.Bytes envOK
        (runOps [.write (List.replicate (chunk + 1) 7), .sync]) =
      .ok (List.replicate (chunk + 1) 7) ∧
    BufferedWriter.Bytes envOK
        (runOps [.write (List.replicate (10 * chunk) 7), .sync]) =
      .ok (List.replicate (10 * chunk) 7) := by
  have hgen : ∀ ops : List BufOp,
      BufferedWriter.Bytes envOK (runOps ops) = .ok (writtenOf ops) := by
    intro ops
    rw [BufferedWriter.Bytes_envOK]
    rw [show runOps ops = ops.foldl bufStep ⟨none, []⟩ from rfl]
    rw [content_foldl_bufStep]
    rfl
  have hone : ∀ p : List Nat,
      BufferedWriter.Bytes envOK (runOps [.write p, .sync]) = .ok p := by
    intro p
    rw [hgen [.write p, .sync]]
    simp [writtenOf]
  exact ⟨hgen, rfl, hone _, hone _, hone _, hone _⟩

/-- A buffer whose in-memory region has exactly threshold many bytes. -/
def bigBuf : BufferedWriter Nat :=
  ⟨none, List.replicate chunk 0⟩

/-- A buffer that already owns a backing store and holds threshold many
in-memory bytes. -/
def bigBufTmp : BufferedWriter Nat :=
  ⟨some [1], List.replicate chunk 0⟩

/-- A storage environment in which temp-file creation fails. -/
def envNoCreate : StorageEnv :=
  ⟨false, true, true⟩

/-- A storage environment in which writes to the temp file fail. -/
def envNoWrite : StorageEnv :=
  ⟨true, false, true⟩

/-- A storage environment in which reading the temp file back fails. -/
def envNoRead : StorageEnv :=
  ⟨true, true, false⟩

/-- C5 as stated is false: at the spill threshold with no backing store
yet, a failed temp-file creation is not returned to the caller of Sync,
which reports success and leaves the writer memory-only. -/
theorem claim_C5_counterexample :
    BufferedWriter.Sync envNoCreate List.length bigBuf = .ok bigBuf := by
  have hlen : ¬ List.length bigBuf.buf < chunk := by
    show ¬ (List.replicate chunk 0).length < chunk
    rw [List.length_replicate]
    exact Nat.lt_irrefl chunk
  unfold BufferedWriter.Sync
  rw [if_neg hlen]
  rfl

/-- C5 amended: a failed write of the in-memory region to the backing
store does propagate out of Sync, whether the store already existed or
was just created, but a failed creation of the backing store is silently
swallowed and Sync reports success with the writer unchanged. -/
theorem claim_C5 :
    (∀ (env : StorageEnv) (bw : BufferedWriter Nat) (t : List Nat),
        bw.tmp = some t → env.writeOk = false → chunk ≤ bw.buf.length →
        BufferedWriter.Sync env List.length bw = .error "storage write error") ∧
    (∀ (env : StorageEnv) (bw : BufferedWriter Nat),
        bw.tmp = none → env.createOk = true → env.writeOk = false →
        chunk ≤ bw.buf.length →
        BufferedWriter.Sync env List.length bw = .error "storage write error") ∧
    (∀ (env : StorageEnv) (bw : BufferedWriter Nat),
        bw.tmp = none → env.createOk = false →
        BufferedWriter.Sync env List.length bw = .ok bw) := by
  refine ⟨?_, ?_, ?_⟩
  · intro env bw t htmp hw hsz
    unfold BufferedWriter.Sync
    have : ¬ bw.buf.length < chunk := by omega
    simp only [this, if_false]
    rw [htmp]
    unfold BufferedWriter.Flush
    rw [htmp, hw]
    rfl
  · intro env bw htmp hc hw hsz
    unfold BufferedWriter.Sync
    have : ¬ bw.buf.length < chunk := by omega
    simp only [this, if_false]
    rw [htmp, hc]
    unfold BufferedWriter.Flush
    simp only [hw]
    rfl
  · intro env bw htmp hc
    unfold BufferedWriter.Sync
    by_cases hsz : bw.buf.length < chunk
    · simp [hsz]
    · simp only [hsz, if_false]
      rw [htmp, hc]
      rfl

theorem claim_C5_witness :
    BufferedWriter.Sync envNoWrite List.length bigBufTmp =
        .error "storage write error" ∧
    BufferedWriter.Sync envNoWrite List.length bigBuf =
        .error "storage write error" ∧
    BufferedWriter.Sync envNoCreate List.length
        (⟨none, [0]⟩ : BufferedWriter Nat) = .ok ⟨none, [0]⟩ :=
  ⟨claim_C5.1 envNoWrite bigBufTmp [1] rfl rfl
      (by show chunk ≤ (List.replicate chunk 0).length
          rw [List.length_replicate]),
    claim_C5.2.1 envNoWrite bigBuf rfl rfl rfl
      (by show chunk ≤ (List.replicate chunk 0).length
          rw [List.length_replicate]),
    claim_C5.2.2 envNoCreate ⟨none, [0]⟩ rfl rfl⟩

/-- A session owning a backing store that already holds one token. -/
def swTmp : StreamWriter :=
  ⟨StreamWriter.file0, 1, ⟨some [.raw "x"], []⟩, none, [], []⟩

theorem flushWriteErr {α : Type} (env : StorageEnv) (bw : BufferedWriter α)
    (t : List α) (htmp : bw.tmp = some t) (hw : env.writeOk = false) :
    BufferedWriter.Flush env bw = .error "storage write error" := by
  unfold BufferedWriter.Flush
  rw [htmp]
  simp [hw]

theorem flushSomeOk {α : Type} (env : StorageEnv) (bw : BufferedWriter α)
    (t : List α) (htmp : bw.tmp = some t) (hw : env.writeOk = true) :
    BufferedWriter.Flush env bw = .ok ⟨some (t ++ bw.buf), []⟩ := by
  unfold BufferedWriter.Flush
  rw [htmp]
  simp [hw]

theorem bytesReadErr {α : Type} (env : StorageEnv) (bw : BufferedWriter α)
    (t : List α) (htmp : bw.tmp = some t) (hw : env.writeOk = true)
    (hr : env.readOk = false) :
    BufferedWriter.Bytes env bw = .error "storage read error" := by
  unfold BufferedWriter.Bytes
  rw [htmp]
  rw [flushSomeOk env bw t htmp hw]
  simp only [htmp]
  simp [hr]

/-- C6 as stated is false: when the initial storage flush inside Flush
fails, the error returns before the buffer disposal is deferred, and the
backing store survives the call undisposed. -/
theorem claim_C6_counterexample :
    (StreamWriter.Flush envNoWrite swTmp).1 = .error "storage write error" ∧
    (StreamWriter.Flush envNoWrite swTmp).2.rawData.tmp = some [.raw "x"] := by
  constructor <;> rfl

/-- C6 amended: if the initial flush of the buffer to storage fails,
Flush returns the error without disposing the backing store; for a
failure later in finalize (draining the content back), the deferred
disposal does run and the backing store is released. -/
theorem claim_C6 :
    (∀ (env : StorageEnv) (sw : StreamWriter) (t : List MTok),
        env.writeOk = false → sw.rawData.tmp = some t →
        (StreamWriter.Flush env sw).1 = .error "storage write error" ∧
        (StreamWriter.Flush env sw).2.rawData.tmp = some t) ∧
    (∀ (env : StorageEnv) (sw : StreamWriter) (t : List MTok),
        env.writeOk = true → env.readOk = false → sw.rawData.tmp = some t →
        (StreamWriter.Flush env sw).1 = .error "storage read error" ∧
        (StreamWriter.Flush env sw).2.rawData =
          (⟨none, []⟩ : BufferedWriter MTok)) := by
  constructor
  · intro env sw t hw htmp
    have htmp' : (sw.rawData.Write
        ([.raw "</sheetData>"] ++ sw.wsClose1 ++
          StreamWriter.tablePartsToks sw.tableParts ++ sw.wsClose2 ++
          [.raw "</worksheet>"])).tmp = some t := htmp
    unfold StreamWriter.Flush
    dsimp only
    rw [flushWriteErr env _ t htmp' hw]
    exact ⟨rfl, htmp⟩
  · intro env sw t hw hr htmp
    have htmp' : (sw.rawData.Write
        ([.raw "</sheetData>"] ++ sw.wsClose1 ++
          StreamWriter.tablePartsToks sw.tableParts ++ sw.wsClose2 ++
          [.raw "</worksheet>"])).tmp = some t := htmp
    unfold StreamWriter.Flush
    dsimp only
    rw [flushSomeOk env _ t htmp' hw]
    dsimp only
    rw [bytesReadErr env _ _ rfl hw hr]
    exact ⟨rfl, rfl⟩

theorem claim_C6_witness :
    ((StreamWriter.Flush envNoWrite swTmp).1 = .error "storage write error" ∧
      (StreamWriter.Flush envNoWrite swTmp).2.rawData.tmp = some [.raw "x"]) ∧
    ((StreamWriter.Flush envNoRead swTmp).1 = .error "storage read error" ∧
      (StreamWriter.Flush envNoRead swTmp).2.rawData =
        (⟨none, []⟩ : BufferedWriter MTok)) :=
  ⟨claim_C6.1 envNoWrite swTmp [.raw "x"] rfl rfl,
    claim_C6.2 envNoRead swTmp [.raw "x"] rfl rfl rfl⟩

/-! ## Table registration and the terminal state -/

namespace StreamWriter

/-- C7: the rectangle correction of AddTable normalizes the rectangle so
the top-left corner precedes the bottom-right one, and only then widens a
single-row rectangle by incrementing the bottom row; feeding it an
already-normalized rectangle changes nothing about the outcome. -/
theorem claim_C7 (r : Rect) :
    addTableCoords r =
      ⟨min r.hc r.vc, min r.hr r.vr, max r.hc r.vc,
        if r.hr = r.vr then max r.hr r.vr + 1 else max r.hr r.vr⟩ ∧
    addTableCoords r =
      addTableCoords ⟨min r.hc r.vc, min r.hr r.vr, max r.hc r.vc,
        max r.hr r.vr⟩ := by
  unfold addTableCoords sortCoordinates
  dsimp only
  constructor
  · by_cases h : r.hr = r.vr
    · have hmm : min r.hr r.vr = max r.hr r.vr := by omega
      rw [if_pos hmm, if_pos h]
    · have hmm : ¬ min r.hr r.vr = max r.hr r.vr := by omega
      rw [if_neg hmm, if_neg h]
  · have h1 : min (min r.hc r.vc) (max r.hc r.vc) = min r.hc r.vc := by omega
    have h2 : max (min r.hc r.vc) (max r.hc r.vc) = max r.hc r.vc := by omega
    have h3 : min (min r.hr r.vr) (max r.hr r.vr) = min r.hr r.vr := by omega
    have h4 : max (min r.hr r.vr) (max r.hr r.vr) = max r.hr r.vr := by omega
    rw [h1, h2, h3, h4]

theorem addTableCoords_pos (c1 r1 c2 r2 : Nat) (hc1 : 1 ≤ c1) (hr1 : 1 ≤ r1)
    (hc2 : 1 ≤ c2) (hr2 : 1 ≤ r2) :
    1 ≤ (addTableCoords ⟨c1, r1, c2, r2⟩).hc ∧
    1 ≤ (addTableCoords ⟨c1, r1, c2, r2⟩).hr ∧
    1 ≤ (addTableCoords ⟨c1, r1, c2, r2⟩).vc ∧
    1 ≤ (addTableCoords ⟨c1, r1, c2, r2⟩).vr := by
  unfold addTableCoords sortCoordinates
  dsimp only
  split
  all_goals dsimp only
  all_goals exact ⟨by omega, by omega, by omega, by omega⟩

theorem areaRangeToCoordinates_ok (c1 r1 c2 r2 : Nat) (hc1 : 1 ≤ c1)
    (hr1 : 1 ≤ r1) (hc2 : 1 ≤ c2) (hr2 : 1 ≤ r2) :
    areaRangeToCoordinates (cellName c1 r1) (cellName c2 r2) =
      .ok ⟨c1, r1, c2, r2⟩ := by
  unfold areaRangeToCoordinates
  rw [cellName_roundtrip c1 r1 hc1 hr1, cellName_roundtrip c2 r2 hc2 hr2]

theorem coordinatesToAreaRef_ok (r : Rect) (h1 : 1 ≤ r.hc) (h2 : 1 ≤ r.hr)
    (h3 : 1 ≤ r.vc) (h4 : 1 ≤ r.vr) :
    coordinatesToAreaRef r =
      .ok (cellName r.hc r.hr ++ [58] ++ cellName r.vc r.vr) := by
  unfold coordinatesToAreaRef
  rw [coordinatesToCellName_ok r.hc r.hr h1 h2,
    coordinatesToCellName_ok r.vc r.vr h3 h4]

/-- What one successful AddTable call does to the session: it reports
success, never touches the installed sheet artifacts or the buffer, and
overwrites the deferred table-parts fragment with a freshly allocated
relationship id. -/
theorem AddTable_ok (sw : StreamWriter) (c1 r1 c2 r2 : Nat) (fs : FormatSet)
    (hdrs : List String) (hc1 : 1 ≤ c1) (hr1 : 1 ≤ r1) (hc2 : 1 ≤ c2)
    (hr2 : 1 ≤ r2)
    (hscan : getRowValues envOK sw (addTableCoords ⟨c1, r1, c2, r2⟩).hr
        (addTableCoords ⟨c1, r1, c2, r2⟩).hc
        (addTableCoords ⟨c1, r1, c2, r2⟩).vc = .ok hdrs) :
    (AddTable envOK sw (cellName c1 r1) (cellName c2 r2) (some fs)).1 =
        .ok () ∧
    (AddTable envOK sw (cellName c1 r1) (cellName c2 r2) (some fs)).2.file.xlsx =
        sw.file.xlsx ∧
    (AddTable envOK sw (cellName c1 r1) (cellName c2 r2) (some fs)).2.tableParts =
        some (sw.file.relsCount + 1) ∧
    (AddTable envOK sw (cellName c1 r1) (cellName c2 r2) (some fs)).2.rawData =
        sw.rawData := by
  obtain ⟨hp1, hp2, hp3, hp4⟩ := addTableCoords_pos c1 r1 c2 r2 hc1 hr1 hc2 hr2
  unfold AddTable
  rw [areaRangeToCoordinates_ok c1 r1 c2 r2 hc1 hr1 hc2 hr2]
  dsimp only
  rw [coordinatesToAreaRef_ok _ hp1 hp2 hp3 hp4]
  dsimp only
  rw [hscan]
  exact ⟨rfl, rfl, rfl, rfl⟩

/-- The partial scan depends only on the buffer. -/
theorem getRowValues_rawData (env : StorageEnv) (sw sw' : StreamWriter)
    (h : sw'.rawData = sw.rawData) (a b c : Nat) :
    getRowValues env sw' a b c = getRowValues env sw a b c := by
  unfold getRowValues
  rw [h]

/-- Table format options with every field defaulted. -/
def fs0 : FormatSet :=
  ⟨[], "", false, false, false, false⟩

/-- C4 as stated is false at this concrete input: a second AddTable on
the same session succeeds instead of failing with a StructuralError. -/
theorem claim_C4_counterexample :
    (AddTable envOK
        (AddTable envOK sw0 (cellName 1 1) (cellName 2 2) (some fs0)).2
        (cellName 1 1) (cellName 2 2) (some fs0)).1 = .ok () := by
  rfl

/-- C4 amended: AddTable does not enforce the one-table-per-session rule;
whenever a first registration succeeded, registering again with the same
valid inputs succeeds as well, overwriting the deferred table-parts
fragment with the next relationship id. -/
theorem claim_C4 (env : StorageEnv) (sw : StreamWriter)
    (hcell vcell : List Nat) (fs : FormatSet)
    (h1 : (AddTable env sw hcell vcell (some fs)).1 = .ok ()) :
    (AddTable env (AddTable env sw hcell vcell (some fs)).2 hcell vcell
        (some fs)).1 = .ok () ∧
    (AddTable env (AddTable env sw hcell vcell (some fs)).2 hcell vcell
        (some fs)).2.tableParts = some (sw.file.relsCount + 2) := by
  unfold AddTable at h1 ⊢
  dsimp only at h1 ⊢
  cases harea : areaRangeToCoordinates hcell vcell with
  | error e => rw [harea] at h1; simp at h1
  | ok r0 =>
    rw [harea] at h1
    dsimp only at h1 ⊢
    cases href : coordinatesToAreaRef (addTableCoords r0) with
    | error e => rw [href] at h1; simp at h1
    | ok ref =>
      rw [href] at h1
      dsimp only at h1 ⊢
      cases hscan : getRowValues env sw (addTableCoords r0).hr
          (addTableCoords r0).hc (addTableCoords r0).vc with
      | error e => rw [hscan] at h1; simp at h1
      | ok hdrs =>
        unfold getRowValues at hscan ⊢
        dsimp only
        rw [hscan]
        exact ⟨rfl, rfl⟩

theorem claim_C4_witness :
    (AddTable envOK
        (AddTable envOK sw0 (cellName 1 1) (cellName 2 2) (some fs0)).2
        (cellName 1 1) (cellName 2 2) (some fs0)).1 = .ok () ∧
    (AddTable envOK
        (AddTable envOK sw0 (cellName 1 1) (cellName 2 2) (some fs0)).2
        (cellName 1 1) (cellName 2 2) (some fs0)).2.tableParts =
      some (sw0.file.relsCount + 2) :=
  claim_C4 envOK sw0 (cellName 1 1) (cellName 2 2) fs0 rfl

/-- C3 as stated is false at this concrete input: row emission after a
completed Flush does not fail with a ProtocolError, it succeeds. -/
theorem claim_C3_counterexample :
    (SetRow envOK (Flush envOK sw0).2 (cellName 1 1) [⟨0, .intv 5⟩]).1 =
      .ok () := by
  rfl

/-- C3 amended: the session has no enforced terminal state and no
ProtocolError.  On a session whose buffer never spilled to a backing
store (the region where the embedding of the disposed buffer is exact;
on a previously spilled session the source instead fails such calls
with file-closed storage errors from the stale handle, still not a
ProtocolError), a completed Flush is followed by a SetRow that succeeds,
writing into the now-reset buffer, and by an AddTable that succeeds as
well; both leave the previously installed sheet artifacts exactly as
Flush left them. -/
theorem claim_C3 (sw : StreamWriter) (c r c1 r1 c2 r2 : Nat)
    (values : List CellIn) (fs : FormatSet)
    (hnospill : sw.rawData.tmp = none) (hc : 1 ≤ c) (hr : 1 ≤ r)
    (henc : ∀ v ∈ values, isOkE (setCellValFunc v.val) = true)
    (hc1 : 1 ≤ c1) (hr1 : 1 ≤ r1) (hc2 : 1 ≤ c2) (hr2 : 1 ≤ r2) :
    (Flush envOK sw).1 = .ok () ∧
    (SetRow envOK (Flush envOK sw).2 (cellName c r) values).1 = .ok () ∧
    (SetRow envOK (Flush envOK sw).2 (cellName c r) values).2.file =
      (Flush envOK sw).2.file ∧
    (AddTable envOK (Flush envOK sw).2 (cellName c1 r1) (cellName c2 r2)
        (some fs)).1 = .ok () ∧
    (AddTable envOK (Flush envOK sw).2 (cellName c1 r1) (cellName c2 r2)
        (some fs)).2.file.xlsx = (Flush envOK sw).2.file.xlsx := by
  have hflush := Flush_envOK_nospill sw hnospill
  obtain ⟨rd3, hset, hcont⟩ :=
    SetRow_ok (Flush envOK sw).2 c r values hc hr henc
  have hscan : getRowValues envOK (Flush envOK sw).2
      (addTableCoords ⟨c1, r1, c2, r2⟩).hr
      (addTableCoords ⟨c1, r1, c2, r2⟩).hc
      (addTableCoords ⟨c1, r1, c2, r2⟩).vc =
      .ok (List.replicate ((addTableCoords ⟨c1, r1, c2, r2⟩).vc -
        (addTableCoords ⟨c1, r1, c2, r2⟩).hc + 1) "") := by
    rw [getRowValues_envOK, hflush]
    rfl
  obtain ⟨ht1, ht2, _, _⟩ :=
    AddTable_ok (Flush envOK sw).2 c1 r1 c2 r2 fs _ hc1 hr1 hc2 hr2 hscan
  refine ⟨by rw [hflush], ?_, ?_, ht1, ht2⟩
  · rw [hset]
  · rw [hset]

theorem claim_C3_witness :
    (Flush envOK sw0).1 = .ok () ∧
    (SetRow envOK (Flush envOK sw0).2 (cellName 1 1) [⟨0, .intv 5⟩]).1 =
      .ok () ∧
    (SetRow envOK (Flush envOK sw0).2 (cellName 1 1)
        [⟨0, .intv 5⟩]).2.file = (Flush envOK sw0).2.file ∧
    (AddTable envOK (Flush envOK sw0).2 (cellName 1 1) (cellName 2 2)
        (some fs0)).1 = .ok () ∧
    (AddTable envOK (Flush envOK sw0).2 (cellName 1 1) (cellName 2 2)
        (some fs0)).2.file.xlsx = (Flush envOK sw0).2.file.xlsx :=
  claim_C3 sw0 1 1 1 1 2 2 [⟨0, .intv 5⟩] fs0 rfl (by decide) (by decide)
    (by decide) (by decide) (by decide) (by decide) (by decide)

end StreamWriter

end Excelize
